import Mathlib

/-!
# Verification of the choir seating-grid core (`src/App.tsx`)

Shallow embedding of the roster builder, the grid assigner
(`generateMembers`: distribution via `flatInsert`, then balancing), and the
swap operation (`moveMember`) of the choir-manager application, together
with theorems settling the specification claims.

Modelling conventions:
* JavaScript arrays become `List`; `(Member | null)` slots become
  `Option Member`.
* `uuidv4()` is an opaque fresh-identifier source; it is modelled by
  sequential natural-number identifiers, whose only relied-upon property is
  uniqueness within one roster build.
* `parseInt` on free-form text (an out-of-scope UI concern per the spec) is
  abstracted as an already-parsed `Option Int` (`none` for NaN); the
  normalisations `parseInt(x) || 0` (with `Array.from` clamping a negative
  length to `0`) and `Math.max(1, parseInt(x) || 1)` are embedded as
  `normalizeCount` and `normalizeRowCount`.
* A thrown `TypeError` (out-of-range row access followed by `.push` /
  property access on `undefined`) is modelled by `Option.none` results.
* Writing past the end of a JS array extends it; the created holes read
  back as `undefined`, modelled as empty (`none`) slots (`jsSet`).
-/

set_option autoImplicit false

namespace ChoirManager

/-- The four fixed voice parts, `const parts = ["Soprano","Alto","Tenor","Bass"]`. -/
inductive Part : Type
  | Soprano
  | Alto
  | Tenor
  | Bass
deriving DecidableEq, Repr

/-- Member record, `interface Member { id; name; part }`; the uuid is
modelled as a `Nat`. -/
structure Member : Type where
  id : Nat
  name : String
  part : Part
deriving DecidableEq, Repr

/-- Initial letter used in the display label (`S${i}`, `A${i}`, ...). -/
def partInitial : Part → String
  | .Soprano => "S"
  | .Alto => "A"
  | .Tenor => "T"
  | .Bass => "B"

/-- One category's roster:
`Array.from({length: n}, (_, i) => ({id: uuidv4(), name: initial+i, part}))`,
with fresh ids `base, base+1, ...`. -/
def mkMembers (p : Part) (n : Nat) (base : Nat) : List Member :=
  (List.range n).map fun i => ⟨base + i, partInitial p ++ toString i, p⟩

/-- The layout-policy selector (`"auto" | "condition1" | "condition2"`). -/
inductive LayoutMode : Type
  | auto
  | condition1
  | condition2
deriving DecidableEq, Repr

/-- A grid: rows of optional member slots (`(Member | null)[][]`). -/
abbrev Grid : Type := List (List (Option Member))

/-- Loop body of `flatInsert`: walks the members with running index `i`,
computes `row = targetRows[i % targetRows.length]` and pushes onto
`newRows[row]`.  A `none` result models the `TypeError` thrown when the
accessed row does not exist. -/
def flatInsertAux : List Member → List Nat → Nat → List (List Member) →
    Option (List (List Member))
  | [], _, _, rows => some rows
  | m :: ms, targets, i, rows =>
    match targets[i % targets.length]? with
    | none => none
    | some r =>
      match rows[r]? with
      | none => none
      | some row => flatInsertAux ms targets (i + 1) (rows.set r (row ++ [m]))

/-- Embeds `const flatInsert = (members, targetRows) => { ... }` from
`generateMembers`, acting on the mutable `newRows`. -/
def flatInsert (ms : List Member) (targets : List Nat)
    (rows : List (List Member)) : Option (List (List Member)) :=
  flatInsertAux ms targets 0 rows

/-- Embeds `Math.max(...newRows.map(r => r.length))` (rows are nonempty in every
reachable state since the row count is clamped to at least 1). -/
def maxLen (rows : List (List Member)) : Nat :=
  (rows.map List.length).foldr max 0

/-- Balancing of one raw row: truncate to `maxLength`, then pad with
`padLeft` empty slots on the left and `padRight = diff - padLeft` on the
right. -/
def balanceRow (ml : Nat) (row : List Member) : List (Option Member) :=
  let trimmed := row.take ml
  let diff := ml - trimmed.length
  let padLeft := diff / 2
  let padRight := diff - padLeft
  List.replicate padLeft (none : Option Member) ++ trimmed.map some ++
    List.replicate padRight (none : Option Member)

/-- Embeds `newRows.map((row, idx) => ...)`: the balancing pass producing the
rectangular grid. -/
def balance (rows : List (List Member)) : Grid :=
  rows.map (balanceRow (maxLen rows))

/-- The four per-category rosters of one build, in source order. -/
def sopranoList (nS : Nat) : List Member := mkMembers .Soprano nS 0
def altoList (nS nA : Nat) : List Member := mkMembers .Alto nA nS
def tenorList (nS nA nT : Nat) : List Member := mkMembers .Tenor nT (nS + nA)
def bassList (nS nA nT nB : Nat) : List Member :=
  mkMembers .Bass nB (nS + nA + nT)

/-- The concatenated roster `[...soprano, ...alto, ...tenor, ...bass]`. -/
def rosterConcat (nS nA nT nB : Nat) : List Member :=
  sopranoList nS ++ altoList nS nA ++ tenorList nS nA nT ++
    bassList nS nA nT nB

/-- The distribution phase of `generateMembers`: build the empty rows and
run the policy's `flatInsert` calls. -/
def rawRows (mode : LayoutMode) (nS nA nT nB rowCount : Nat) :
    Option (List (List Member)) :=
  let soprano := sopranoList nS
  let alto := altoList nS nA
  let tenor := tenorList nS nA nT
  let bass := bassList nS nA nT nB
  let newRows : List (List Member) := List.replicate rowCount []
  match mode with
  | .condition1 =>
    (flatInsert (soprano ++ alto) [0, 1] newRows).bind
      (flatInsert (tenor ++ bass) [2])
  | .condition2 =>
    (flatInsert (soprano ++ alto) [0, 1, 2] newRows).bind
      (flatInsert (tenor ++ bass) [3])
  | .auto =>
    flatInsert (soprano ++ alto ++ tenor ++ bass)
      (List.range rowCount) newRows

/-- Embeds `generateMembers`: distribution followed by balancing; the produced
grid is what `setRows(balancedRows)` installs.  `none` models the thrown
`TypeError` of an out-of-range row access (in which case `setRows` is never
reached and the previous grid stays). -/
def generateMembers (mode : LayoutMode) (nS nA nT nB rowCount : Nat) :
    Option Grid :=
  (rawRows mode nS nA nT nB rowCount).map balance

/-- JS read `row[i]`: out-of-range reads give `undefined`, which is
indistinguishable from an empty slot downstream. -/
def jsGet (row : List (Option Member)) (i : Nat) : Option Member :=
  match row[i]? with
  | none => none
  | some v => v

/-- JS write `row[i] = v`: in range it updates; past the end it extends the
array to length `i + 1`, the intermediate holes reading back as empty. -/
def jsSet (row : List (Option Member)) (i : Nat) (v : Option Member) :
    List (Option Member) :=
  if i < row.length then row.set i v
  else row ++ List.replicate (i - row.length) (none : Option Member) ++ [v]

/-- Embeds `moveMember(fromRow, fromIndex, toRow, toIndex)`: copy the rows, read
both slots, then perform the two writes in source order (the second write
observes the first when both target the same row, as the JS arrays alias).
`none` models the `TypeError` thrown when a row index is out of range. -/
def moveMember (rows : Grid) (fromRow fromIndex toRow toIndex : Nat) :
    Option Grid :=
  match rows[fromRow]? with
  | none => none
  | some fRow =>
    match rows[toRow]? with
    | none => none
    | some tRow =>
      let fromMember := jsGet fRow fromIndex
      let toMember := jsGet tRow toIndex
      let rows1 := rows.set fromRow (jsSet fRow fromIndex toMember)
      match rows1[toRow]? with
      | none => none
      | some tRow1 => some (rows1.set toRow (jsSet tRow1 toIndex fromMember))

/-- Count normalisation `parseInt(x) || 0` composed with `Array.from`'s
clamping of a negative length to `0`: the effective member count. -/
def normalizeCount : Option Int → Nat
  | none => 0
  | some v => v.toNat

/-- Row-count normalisation `Math.max(1, parseInt(x) || 1)`. -/
def normalizeRowCount : Option Int → Nat
  | none => 1
  | some v => max 1 v.toNat

/-- The policy's target rows all exist: `auto` targets rows `0..R-1`,
`condition1` rows `0,1,2`, `condition2` rows `0,1,2,3`. -/
def modeOk : LayoutMode → Nat → Bool
  | .auto, _ => true
  | .condition1, r => decide (3 ≤ r)
  | .condition2, r => decide (4 ≤ r)

/-- The content of the slot at `(r, i)`, when that address exists. -/
def slotAt (g : Grid) (r i : Nat) : Option (Option Member) :=
  (g[r]?).bind fun row => row[i]?

/-- Address validity for `Swap`: the row exists and the index is within it. -/
def validAddr (g : Grid) (r i : Nat) : Bool :=
  match g[r]? with
  | none => false
  | some row => i < row.length

/-- All members sitting in the grid, row by row, left to right. -/
def gridMembers (g : Grid) : List Member :=
  g.flatten.filterMap id

/-- The number of non-empty slots of the grid. -/
def nonEmptyCount (g : Grid) : Nat :=
  (gridMembers g).length

/-- Selection of the members at positions congruent to `j` mod `k`,
starting the position counter at `i` (the order-preserving content of one
round-robin row). -/
def selectModFrom : List Member → Nat → Nat → Nat → List Member
  | [], _, _, _ => []
  | m :: ms, k, j, i =>
    (if i % k = j then [m] else []) ++ selectModFrom ms k j (i + 1)

/-- The members a round-robin group of size `k` sends to its `j`-th row. -/
def selectMod (ms : List Member) (k j : Nat) : List Member :=
  selectModFrom ms k j 0

/-! ## Generic list helpers -/

theorem foldr_max_le_of_mem (l : List Nat) (x : Nat) (h : x ∈ l) :
    x ≤ l.foldr max 0 := by
  induction l with
  | nil => cases h
  | cons y ys ih =>
    rcases List.mem_cons.mp h with h | h
    · subst h; exact Nat.le_max_left _ _
    · exact Nat.le_trans (ih h) (Nat.le_max_right _ _)

theorem flatten_replicate_nil {α : Type} (n : Nat) :
    (List.replicate n ([] : List α)).flatten = [] := by
  induction n with
  | zero => rfl
  | succ n ih => simp [List.replicate_succ, ih]

theorem set_getElem?_self {α : Type} (l : List α) (i : Nat) (v : α)
    (h : l[i]? = some v) : l.set i v = l := by
  induction l generalizing i with
  | nil => simp at h
  | cons a t ih =>
    cases i with
    | zero => simp_all
    | succ i => simp_all [List.set]

theorem flatten_set_append {α : Type} (rows : List (List α)) (t : Nat)
    (row : List α) (m : α) (h : rows[t]? = some row) :
    (rows.set t (row ++ [m])).flatten.Perm (rows.flatten ++ [m]) := by
  induction rows generalizing t with
  | nil => simp at h
  | cons r rs ih =>
    cases t with
    | zero =>
      simp only [List.getElem?_cons_zero, Option.some.injEq] at h
      subst h
      simp only [List.set, List.flatten_cons, List.append_assoc]
      exact List.Perm.append_left _ (List.perm_append_comm)
    | succ t =>
      simp only [List.getElem?_cons_succ] at h
      simp only [List.set, List.flatten_cons]
      calc (r ++ (rs.set t (row ++ [m])).flatten).Perm
            (r ++ (rs.flatten ++ [m])) := List.Perm.append_left _ (ih t h)
        _ = (r ++ rs.flatten) ++ [m] := by rw [List.append_assoc]

theorem count_flatten_set (rows : List (List (Option Member)))
    (t : Nat) (row row' : List (Option Member)) (h : rows[t]? = some row)
    (x : Option Member) :
    ((rows.set t row').flatten.count x) + row.count x =
      rows.flatten.count x + row'.count x := by
  induction rows generalizing t with
  | nil => simp at h
  | cons r rs ih =>
    cases t with
    | zero =>
      simp only [List.getElem?_cons_zero, Option.some.injEq] at h
      subst h
      simp only [List.set, List.flatten_cons, List.count_append]
      omega
    | succ t =>
      simp only [List.getElem?_cons_succ] at h
      have := ih t h
      simp only [List.set, List.flatten_cons, List.count_append]
      omega

theorem count_set (l : List (Option Member)) (i : Nat)
    (v old : Option Member) (h : l[i]? = some old) (x : Option Member) :
    ((l.set i v).count x) + (if old = x then 1 else 0) =
      l.count x + (if v = x then 1 else 0) := by
  induction l generalizing i with
  | nil => simp at h
  | cons a t ih =>
    cases i with
    | zero =>
      simp only [List.getElem?_cons_zero, Option.some.injEq] at h
      subst h
      simp only [List.set, List.count_cons, beq_iff_eq]
      split_ifs <;> omega
    | succ i =>
      simp only [List.getElem?_cons_succ] at h
      have hrec := ih i h
      simp only [List.set, List.count_cons, beq_iff_eq]
      split_ifs at hrec ⊢ <;> omega

/-! ## Distribution lemmas (`flatInsert`) -/

theorem flatInsertAux_spec (ms : List Member) (targets : List Nat) :
    ∀ (i : Nat) (rows : List (List Member)), targets ≠ [] →
    (∀ t ∈ targets, t < rows.length) →
    ∃ rows', flatInsertAux ms targets i rows = some rows' ∧
      rows'.length = rows.length ∧
      rows'.flatten.Perm (rows.flatten ++ ms) := by
  induction ms with
  | nil =>
    intro i rows _ _
    exact ⟨rows, rfl, rfl, by simp⟩
  | cons m ms ih =>
    intro i rows hne hrange
    have hk : 0 < targets.length := List.length_pos.mpr hne
    have hlt : i % targets.length < targets.length := Nat.mod_lt _ hk
    have hta : targets[i % targets.length]? =
        some (targets[i % targets.length]) := List.getElem?_eq_getElem hlt
    set t := targets[i % targets.length] with htdef
    have htmem : t ∈ targets := List.getElem_mem hlt
    have htrows : t < rows.length := hrange t htmem
    have hrow : rows[t]? = some (rows[t]) := List.getElem?_eq_getElem htrows
    set row := rows[t] with hrowdef
    have hrange' : ∀ u ∈ targets, u < (rows.set t (row ++ [m])).length := by
      intro u hu
      rw [List.length_set]
      exact hrange u hu
    obtain ⟨rows', hrun, hlen, hperm⟩ :=
      ih (i + 1) (rows.set t (row ++ [m])) hne hrange'
    refine ⟨rows', ?_, ?_, ?_⟩
    · simp only [flatInsertAux, hta, hrow, hrun]
    · rw [hlen, List.length_set]
    · have hstep : (rows.set t (row ++ [m])).flatten.Perm (rows.flatten ++ [m]) :=
        flatten_set_append rows t row m hrow
      have h2 : ((rows.set t (row ++ [m])).flatten ++ ms).Perm
          (rows.flatten ++ (m :: ms)) := by
        have h3 := hstep.append_right ms
        rwa [List.append_assoc, List.singleton_append] at h3
      exact hperm.trans h2

theorem flatInsertAux_content (ms : List Member) (targets : List Nat) :
    ∀ (i : Nat) (rows rows' : List (List Member)), targets.Nodup →
    flatInsertAux ms targets i rows = some rows' →
    ∀ j t, targets[j]? = some t →
      rows'[t]? = (rows[t]?).map (· ++ selectModFrom ms targets.length j i) := by
  induction ms with
  | nil =>
    intro i rows rows' _ h j t _
    cases h
    cases hrt : rows[t]? <;> simp [selectModFrom, hrt]
  | cons m ms ih =>
    intro i rows rows' hnd h j t htj
    simp only [flatInsertAux] at h
    split at h
    · simp at h
    · rename_i t0 hta
      split at h
      · simp at h
      · rename_i row0 hrow
        have hrec := ih (i + 1) (rows.set t0 (row0 ++ [m])) rows' hnd h j t htj
        obtain ⟨hjk, htj'⟩ := List.getElem?_eq_some_iff.mp htj
        obtain ⟨hik, hta'⟩ := List.getElem?_eq_some_iff.mp hta
        obtain ⟨ht0, hrow'⟩ := List.getElem?_eq_some_iff.mp hrow
        by_cases hj : i % targets.length = j
        · have ht : t = t0 := by
            rw [hj] at hta
            exact (Option.some.injEq _ _).mp (htj.symm.trans hta)
          subst ht
          rw [List.getElem?_set_self ht0] at hrec
          rw [hrec, hrow]
          simp [selectModFrom, hj, List.append_assoc]
        · have ht : t0 ≠ t := by
            intro hcontra
            apply hj
            subst hcontra
            exact (List.Nodup.getElem_inj_iff hnd).mp (hta'.trans htj'.symm) ▸ rfl
          rw [List.getElem?_set_ne ht] at hrec
          rw [hrec]
          simp only [selectModFrom, if_neg hj, List.nil_append]

/-- Running `flatInsert` on pairwise-distinct in-range target rows: succeeds, and
the group's `j`-th row receives exactly the members at source positions
congruent to `j` modulo the group size, appended in source order. -/
theorem flatInsert_spec (ms : List Member) (targets : List Nat)
    (rows : List (List Member)) (hne : targets ≠ []) (hnd : targets.Nodup)
    (hrange : ∀ t ∈ targets, t < rows.length) :
    ∃ rows', flatInsert ms targets rows = some rows' ∧
      rows'.length = rows.length ∧
      rows'.flatten.Perm (rows.flatten ++ ms) ∧
      ∀ j t, targets[j]? = some t →
        rows'[t]? = (rows[t]?).map (· ++ selectMod ms targets.length j) := by
  obtain ⟨rows', hrun, hlen, hperm⟩ := flatInsertAux_spec ms targets 0 rows hne hrange
  exact ⟨rows', hrun, hlen, hperm,
    fun j t htj => flatInsertAux_content ms targets 0 rows rows' hnd hrun j t htj⟩

/-! ## Balancing lemmas -/

theorem balanceRow_length (ml : Nat) (row : List Member) :
    (balanceRow ml row).length = ml := by
  unfold balanceRow
  simp only [List.length_append, List.length_replicate, List.length_map,
    List.length_take]
  omega

theorem balance_length (raw : List (List Member)) :
    (balance raw).length = raw.length := by
  unfold balance
  exact List.length_map _ _

theorem length_le_maxLen (raw : List (List Member)) (row : List Member)
    (h : row ∈ raw) : row.length ≤ maxLen raw :=
  foldr_max_le_of_mem _ _ (List.mem_map_of_mem List.length h)

theorem filterMap_some_map (row : List Member) :
    (row.map some).filterMap id = row := by
  induction row with
  | nil => rfl
  | cons a t ih => simp [ih]

theorem filterMap_balanceRow (ml : Nat) (row : List Member) :
    (balanceRow ml row).filterMap id = row.take ml := by
  unfold balanceRow
  simp only [List.filterMap_append, List.filterMap_replicate, id_eq]
  rw [List.nil_append, List.append_nil, filterMap_some_map]

theorem gridMembers_balance (raw : List (List Member)) :
    gridMembers (balance raw) = raw.flatten := by
  unfold gridMembers balance
  rw [List.filterMap_flatten, List.map_map]
  have hmap : List.map (List.filterMap id ∘ balanceRow (maxLen raw)) raw =
      List.map id raw := by
    apply List.map_congr_left
    intro row hrow
    simp only [Function.comp_apply, filterMap_balanceRow, id_eq]
    exact List.take_of_length_le (length_le_maxLen raw row hrow)
  rw [hmap, List.map_id]

theorem balance_getElem? (raw : List (List Member)) (r : Nat)
    (rawRow : List Member) (h : raw[r]? = some rawRow) :
    (balance raw)[r]? = some (
      List.replicate ((maxLen raw - rawRow.length) / 2) (none : Option Member) ++
      rawRow.map some ++
      List.replicate ((maxLen raw - rawRow.length) -
        (maxLen raw - rawRow.length) / 2) (none : Option Member)) := by
  have hmem : rawRow ∈ raw := List.getElem?_mem h
  have hle : rawRow.length ≤ maxLen raw := length_le_maxLen raw rawRow hmem
  have hrow : balanceRow (maxLen raw) rawRow =
      List.replicate ((maxLen raw - rawRow.length) / 2) (none : Option Member) ++
      rawRow.map some ++
      List.replicate ((maxLen raw - rawRow.length) -
        (maxLen raw - rawRow.length) / 2) (none : Option Member) := by
    simp only [balanceRow]
    rw [List.take_of_length_le hle]
  unfold balance
  rw [List.getElem?_map, h]
  show some (balanceRow (maxLen raw) rawRow) = _
  rw [hrow]

/-! ## Roster lemmas -/

theorem length_mkMembers (p : Part) (n base : Nat) :
    (mkMembers p n base).length = n := by
  unfold mkMembers
  rw [List.length_map, List.length_range]

theorem map_id_mkMembers (p : Part) (n base : Nat) :
    (mkMembers p n base).map Member.id = (List.range n).map (base + ·) := by
  unfold mkMembers
  rw [List.map_map]
  rfl

theorem rosterConcat_map_id (nS nA nT nB : Nat) :
    (rosterConcat nS nA nT nB).map Member.id =
      List.range (nS + nA + nT + nB) := by
  unfold rosterConcat sopranoList altoList tenorList bassList
  rw [List.range_add (nS + nA + nT) nB, List.range_add (nS + nA) nT,
    List.range_add nS nA]
  simp only [List.map_append, map_id_mkMembers]
  have hzero : (fun x => 0 + x) = (id : Nat → Nat) :=
    funext fun x => Nat.zero_add x
  rw [hzero, List.map_id]

theorem rosterConcat_nodup (nS nA nT nB : Nat) :
    (rosterConcat nS nA nT nB).Nodup := by
  apply List.Nodup.of_map Member.id
  rw [rosterConcat_map_id]
  exact List.nodup_range _

theorem rosterConcat_length (nS nA nT nB : Nat) :
    (rosterConcat nS nA nT nB).length = nS + nA + nT + nB := by
  have h := congrArg List.length (rosterConcat_map_id nS nA nT nB)
  rwa [List.length_map, List.length_range] at h

/-! ## Distribution-phase lemmas (`rawRows`) -/

theorem rawRows_spec (mode : LayoutMode) (nS nA nT nB R : Nat) (hR : 1 ≤ R)
    (hmode : modeOk mode R = true) :
    ∃ raw, rawRows mode nS nA nT nB R = some raw ∧ raw.length = R ∧
      raw.flatten.Perm (rosterConcat nS nA nT nB) := by
  have hlenrep : (List.replicate R ([] : List Member)).length = R :=
    List.length_replicate R []
  cases mode with
  | auto =>
    have hne : List.range R ≠ [] := by
      intro hcontra
      rw [List.range_eq_nil] at hcontra
      omega
    have hrange : ∀ t ∈ List.range R,
        t < (List.replicate R ([] : List Member)).length := by
      intro t ht
      rw [hlenrep]
      exact List.mem_range.mp ht
    obtain ⟨raw, hrun, hlen, hperm⟩ :=
      flatInsertAux_spec
        (sopranoList nS ++ altoList nS nA ++ tenorList nS nA nT ++
          bassList nS nA nT nB)
        (List.range R) 0 (List.replicate R []) hne hrange
    refine ⟨raw, ?_, by rw [hlen, hlenrep], ?_⟩
    · simp only [rawRows, flatInsert]
      exact hrun
    · rw [flatten_replicate_nil, List.nil_append] at hperm
      exact hperm
  | condition1 =>
    have hmode' : 3 ≤ R := by simpa [modeOk] using hmode
    have hrange1 : ∀ t ∈ [0, 1],
        t < (List.replicate R ([] : List Member)).length := by
      intro t ht
      rw [hlenrep]
      rcases List.mem_cons.mp ht with rfl | ht
      · omega
      · rcases List.mem_singleton.mp ht with rfl
        omega
    obtain ⟨rows1, hrun1, hlen1, hperm1⟩ :=
      flatInsertAux_spec (sopranoList nS ++ altoList nS nA) [0, 1] 0
        (List.replicate R []) (by simp) hrange1
    have hrange2 : ∀ t ∈ [2], t < rows1.length := by
      intro t ht
      rcases List.mem_singleton.mp ht with rfl
      rw [hlen1, hlenrep]
      omega
    obtain ⟨raw, hrun2, hlen2, hperm2⟩ :=
      flatInsertAux_spec (tenorList nS nA nT ++ bassList nS nA nT nB) [2] 0
        rows1 (by simp) hrange2
    refine ⟨raw, ?_, by rw [hlen2, hlen1, hlenrep], ?_⟩
    · simp only [rawRows, flatInsert]
      rw [show flatInsertAux (sopranoList nS ++ altoList nS nA) [0, 1] 0
            (List.replicate R []) = some rows1 from hrun1]
      exact hrun2
    · rw [flatten_replicate_nil, List.nil_append] at hperm1
      have h3 := hperm2.trans (hperm1.append_right _)
      simp only [rosterConcat]
      rw [List.append_assoc (sopranoList nS ++ altoList nS nA)]
      exact h3
  | condition2 =>
    have hmode' : 4 ≤ R := by simpa [modeOk] using hmode
    have hrange1 : ∀ t ∈ [0, 1, 2],
        t < (List.replicate R ([] : List Member)).length := by
      intro t ht
      rw [hlenrep]
      rcases List.mem_cons.mp ht with rfl | ht
      · omega
      · rcases List.mem_cons.mp ht with rfl | ht
        · omega
        · rcases List.mem_singleton.mp ht with rfl
          omega
    obtain ⟨rows1, hrun1, hlen1, hperm1⟩ :=
      flatInsertAux_spec (sopranoList nS ++ altoList nS nA) [0, 1, 2] 0
        (List.replicate R []) (by simp) hrange1
    have hrange2 : ∀ t ∈ [3], t < rows1.length := by
      intro t ht
      rcases List.mem_singleton.mp ht with rfl
      rw [hlen1, hlenrep]
      omega
    obtain ⟨raw, hrun2, hlen2, hperm2⟩ :=
      flatInsertAux_spec (tenorList nS nA nT ++ bassList nS nA nT nB) [3] 0
        rows1 (by simp) hrange2
    refine ⟨raw, ?_, by rw [hlen2, hlen1, hlenrep], ?_⟩
    · simp only [rawRows, flatInsert]
      rw [show flatInsertAux (sopranoList nS ++ altoList nS nA) [0, 1, 2] 0
            (List.replicate R []) = some rows1 from hrun1]
      exact hrun2
    · rw [flatten_replicate_nil, List.nil_append] at hperm1
      have h3 := hperm2.trans (hperm1.append_right _)
      simp only [rosterConcat]
      rw [List.append_assoc (sopranoList nS ++ altoList nS nA)]
      exact h3

theorem rawRows_auto_content (nS nA nT nB R : Nat) (hR : 1 ≤ R) :
    ∃ raw, rawRows .auto nS nA nT nB R = some raw ∧ raw.length = R ∧
      ∀ r, r < R →
        raw[r]? = some (selectMod (rosterConcat nS nA nT nB) R r) := by
  have hlenrep : (List.replicate R ([] : List Member)).length = R :=
    List.length_replicate R []
  have hne : List.range R ≠ [] := by
    intro hcontra
    rw [List.range_eq_nil] at hcontra
    omega
  have hrange : ∀ t ∈ List.range R,
      t < (List.replicate R ([] : List Member)).length := by
    intro t ht
    rw [hlenrep]
    exact List.mem_range.mp ht
  obtain ⟨raw, hrun, hlen, _, hcontent⟩ :=
    flatInsert_spec
      (sopranoList nS ++ altoList nS nA ++ tenorList nS nA nT ++
        bassList nS nA nT nB)
      (List.range R) (List.replicate R []) hne (List.nodup_range R) hrange
  refine ⟨raw, ?_, by rw [hlen, hlenrep], ?_⟩
  · simp only [rawRows, flatInsert]
    exact hrun
  · intro r hr
    have hcr := hcontent r r (List.getElem?_range hr)
    rw [List.length_range] at hcr
    rw [hcr, List.getElem?_replicate, if_pos hr]
    simp [rosterConcat]

/-! ## Swap lemmas (`moveMember`) -/

theorem validAddr_iff (g : Grid) (r i : Nat) :
    validAddr g r i = true ↔ ∃ row, g[r]? = some row ∧ i < row.length := by
  unfold validAddr
  cases h : g[r]? with
  | none => simp
  | some row => simp

theorem slotAt_eq (rows : Grid) (r : Nat) (row : List (Option Member))
    (h : rows[r]? = some row) (i : Nat) : slotAt rows r i = row[i]? := by
  unfold slotAt
  rw [h]
  rfl

theorem slotAt_set_same (rows : Grid) (r : Nat) (row' : List (Option Member))
    (hr : r < rows.length) (i : Nat) :
    slotAt (rows.set r row') r i = row'[i]? := by
  unfold slotAt
  rw [List.getElem?_set_self hr]
  rfl

theorem slotAt_set_other (rows : Grid) (r : Nat) (row' : List (Option Member))
    (r' : Nat) (hne : r ≠ r') (i : Nat) :
    slotAt (rows.set r row') r' i = slotAt rows r' i := by
  unfold slotAt
  rw [List.getElem?_set_ne hne]

theorem grid_ext (g h : Grid) (hlen : g.length = h.length)
    (hslot : ∀ r i, slotAt g r i = slotAt h r i) : g = h := by
  apply List.ext_getElem?
  intro r
  cases hg : g[r]? with
  | none =>
    have hlg : g.length ≤ r := List.getElem?_eq_none_iff.mp hg
    have : h[r]? = none := List.getElem?_eq_none_iff.mpr (hlen ▸ hlg)
    rw [this]
  | some row1 =>
    have hrg : r < g.length := (List.getElem?_eq_some_iff.mp hg).1
    have hrh : r < h.length := hlen ▸ hrg
    obtain ⟨row2, hh⟩ : ∃ row2, h[r]? = some row2 :=
      ⟨_, List.getElem?_eq_getElem hrh⟩
    rw [hh]
    have hroweq : row1 = row2 := by
      apply List.ext_getElem?
      intro i
      have := hslot r i
      rwa [slotAt_eq g r row1 hg, slotAt_eq h r row2 hh] at this
    rw [hroweq]

theorem moveMember_spec (rows : Grid) (fr fi tr ti : Nat)
    (hf : validAddr rows fr fi = true) (ht : validAddr rows tr ti = true) :
    ∃ g, moveMember rows fr fi tr ti = some g ∧
      g.length = rows.length ∧
      (∀ r : Nat, Option.map List.length g[r]? =
        Option.map List.length rows[r]?) ∧
      slotAt g fr fi = slotAt rows tr ti ∧
      slotAt g tr ti = slotAt rows fr fi ∧
      (∀ r i : Nat, ¬(r = fr ∧ i = fi) → ¬(r = tr ∧ i = ti) →
        slotAt g r i = slotAt rows r i) ∧
      (∀ x : Option Member, g.flatten.count x = rows.flatten.count x) := by
  obtain ⟨fRow, hfr, hfi⟩ := (validAddr_iff rows fr fi).mp hf
  obtain ⟨tRow, htr, hti⟩ := (validAddr_iff rows tr ti).mp ht
  have hfrlen : fr < rows.length := (List.getElem?_eq_some_iff.mp hfr).1
  have htrlen : tr < rows.length := (List.getElem?_eq_some_iff.mp htr).1
  obtain ⟨fv, hfv⟩ : ∃ v, fRow[fi]? = some v := ⟨_, List.getElem?_eq_getElem hfi⟩
  obtain ⟨tv, htv⟩ : ∃ v, tRow[ti]? = some v := ⟨_, List.getElem?_eq_getElem hti⟩
  have hjsf : jsGet fRow fi = fv := by unfold jsGet; rw [hfv]
  have hjst : jsGet tRow ti = tv := by unfold jsGet; rw [htv]
  have hsetA : jsSet fRow fi tv = fRow.set fi tv := by
    unfold jsSet
    rw [if_pos hfi]
  by_cases hfrtr : fr = tr
  · -- same row: the two writes hit the one copied row in sequence
    subst hfrtr
    have hrowseq : fRow = tRow := Option.some.inj (hfr.symm.trans htr)
    subst hrowseq
    have hA : (rows.set fr (fRow.set fi tv))[fr]? = some (fRow.set fi tv) :=
      List.getElem?_set_self hfrlen
    have htiA : ti < (fRow.set fi tv).length := by
      rw [List.length_set]
      exact hti
    have hsetB : jsSet (fRow.set fi tv) ti fv = (fRow.set fi tv).set ti fv := by
      unfold jsSet
      rw [if_pos htiA]
    have hAti : (fRow.set fi tv)[ti]? = some tv := by
      by_cases h : fi = ti
      · subst h
        exact List.getElem?_set_self hfi
      · rw [List.getElem?_set_ne h, htv]
    have hrun : moveMember rows fr fi fr ti =
        some (rows.set fr ((fRow.set fi tv).set ti fv)) := by
      simp only [moveMember, hfr, hjsf, hjst, hsetA, hA, hsetB, List.set_set]
    refine ⟨_, hrun, ?_, ?_, ?_, ?_, ?_, ?_⟩
    · rw [List.length_set]
    · intro r
      by_cases hr : fr = r
      · subst hr
        rw [List.getElem?_set_self hfrlen, hfr]
        simp [List.length_set]
      · rw [List.getElem?_set_ne hr]
    · rw [slotAt_set_same _ _ _ hfrlen, slotAt_eq rows fr fRow hfr]
      by_cases h : ti = fi
      · subst h
        rw [List.set_set, List.getElem?_set_self hfi, htv]
        have hfvtv : fv = tv := Option.some.inj (hfv.symm.trans htv)
        rw [hfvtv]
      · rw [List.getElem?_set_ne h, List.getElem?_set_self hfi, htv]
    · rw [slotAt_set_same _ _ _ hfrlen, slotAt_eq rows fr fRow hfr,
        List.getElem?_set_self htiA, hfv]
    · intro r i hra hrb
      by_cases hr : fr = r
      · subst hr
        have hifi : i ≠ fi := fun hcontra => hra ⟨rfl, hcontra⟩
        have hiti : i ≠ ti := fun hcontra => hrb ⟨rfl, hcontra⟩
        rw [slotAt_set_same _ _ _ hfrlen, slotAt_eq rows fr fRow hfr,
          List.getElem?_set_ne (fun h => hiti h.symm),
          List.getElem?_set_ne (fun h => hifi h.symm)]
      · rw [slotAt_set_other _ _ _ _ hr]
    · intro x
      have e1 := count_flatten_set rows fr fRow ((fRow.set fi tv).set ti fv)
        hfr x
      have e2 := count_set (fRow.set fi tv) ti fv tv hAti x
      have e3 := count_set fRow fi tv fv hfv x
      omega
  · -- distinct rows
    have hB : (rows.set fr (fRow.set fi tv))[tr]? = some tRow := by
      rw [List.getElem?_set_ne hfrtr, htr]
    have hsetB : jsSet tRow ti fv = tRow.set ti fv := by
      unfold jsSet
      rw [if_pos hti]
    have hrun : moveMember rows fr fi tr ti =
        some ((rows.set fr (fRow.set fi tv)).set tr (tRow.set ti fv)) := by
      simp only [moveMember, hfr, htr, hjsf, hjst, hsetA, hB, hsetB]
    have hlen1 : (rows.set fr (fRow.set fi tv)).length = rows.length :=
      List.length_set _ _ _
    have htrlen1 : tr < (rows.set fr (fRow.set fi tv)).length := by
      rw [hlen1]
      exact htrlen
    refine ⟨_, hrun, ?_, ?_, ?_, ?_, ?_, ?_⟩
    · rw [List.length_set, List.length_set]
    · intro r
      by_cases hr2 : tr = r
      · subst hr2
        rw [List.getElem?_set_self htrlen1, htr]
        simp [List.length_set]
      · rw [List.getElem?_set_ne hr2]
        by_cases hr1 : fr = r
        · subst hr1
          rw [List.getElem?_set_self hfrlen, hfr]
          simp [List.length_set]
        · rw [List.getElem?_set_ne hr1]
    · rw [slotAt_set_other _ _ _ _ (fun h => hfrtr h.symm),
        slotAt_set_same _ _ _ hfrlen, slotAt_eq rows tr tRow htr,
        List.getElem?_set_self hfi, htv]
    · rw [slotAt_set_same _ _ _ htrlen1, slotAt_eq rows fr fRow hfr,
        List.getElem?_set_self hti, hfv]
    · intro r i hra hrb
      by_cases hr2 : tr = r
      · subst hr2
        have hiti : i ≠ ti := fun hcontra => hrb ⟨rfl, hcontra⟩
        rw [slotAt_set_same _ _ _ htrlen1,
          List.getElem?_set_ne (fun h => hiti h.symm),
          slotAt_eq rows tr tRow htr]
      · rw [slotAt_set_other _ _ _ _ hr2]
        by_cases hr1 : fr = r
        · subst hr1
          have hifi : i ≠ fi := fun hcontra => hra ⟨rfl, hcontra⟩
          rw [slotAt_set_same _ _ _ hfrlen,
            List.getElem?_set_ne (fun h => hifi h.symm),
            slotAt_eq rows fr fRow hfr]
        · rw [slotAt_set_other _ _ _ _ hr1]
    · intro x
      have e1 := count_flatten_set rows fr fRow (fRow.set fi tv) hfr x
      have e2 := count_flatten_set (rows.set fr (fRow.set fi tv)) tr tRow
        (tRow.set ti fv) hB x
      have e3 := count_set fRow fi tv fv hfv x
      have e4 := count_set tRow ti fv tv htv x
      omega

theorem count_eq_decEq_count (x : Option Member) (l : List (Option Member)) :
    l.count x = @List.count (Option Member) instBEqOfDecidableEq x l := by
  induction l with
  | nil => rfl
  | cons a t ih =>
    rw [List.count_cons, @List.count_cons (Option Member) instBEqOfDecidableEq,
      ih]
    congr 1
    simp [beq_iff_eq]

theorem validAddr_congr (g h : Grid)
    (hl : ∀ r : Nat, Option.map List.length g[r]? =
      Option.map List.length h[r]?) (r i : Nat) :
    validAddr g r i = validAddr h r i := by
  unfold validAddr
  have hlr := hl r
  cases hg : g[r]? with
  | none =>
    rw [hg] at hlr
    cases hh : h[r]? with
    | none => rfl
    | some row =>
      rw [hh] at hlr
      simp at hlr
  | some row =>
    rw [hg] at hlr
    cases hh : h[r]? with
    | none =>
      rw [hh] at hlr
      simp at hlr
    | some row' =>
      rw [hh] at hlr
      simp only [Option.map_some', Option.some.injEq] at hlr
      show decide (i < row.length) = decide (i < row'.length)
      rw [hlr]

example : generateMembers .auto 2 2 0 0 2 =
    some [[some ⟨0, "S0", .Soprano⟩, some ⟨2, "A0", .Alto⟩],
          [some ⟨1, "S1", .Soprano⟩, some ⟨3, "A1", .Alto⟩]] := by
  decide

example : generateMembers .auto 1 0 0 0 2 =
    some [[some ⟨0, "S0", .Soprano⟩], [none]] := by
  decide

example : generateMembers .condition1 1 1 1 1 2 = none := by decide

example : moveMember [[some ⟨0, "S0", .Soprano⟩, some ⟨2, "A0", .Alto⟩],
      [some ⟨1, "S1", .Soprano⟩, some ⟨3, "A1", .Alto⟩]] 0 0 1 0 =
    some [[some ⟨1, "S1", .Soprano⟩, some ⟨2, "A0", .Alto⟩],
          [some ⟨0, "S0", .Soprano⟩, some ⟨3, "A1", .Alto⟩]] := by
  decide

/-! ## Claim theorems -/

/-- C1: for every configuration with row count `R ≥ 1` and a policy whose
target rows all exist, the grid produced by regenerate has exactly `R`
rows, every row has exactly `maxLength` slots where `maxLength` is the
maximum raw row length, and each final row equals `padLeft` empty slots,
then that row's raw members in their original order, then `padRight` empty
slots, with `diff = maxLength - rawRowLength`, `padLeft = diff / 2` and
`padRight = diff - padLeft`. -/
theorem C1_grid_shape (mode : LayoutMode) (nS nA nT nB R : Nat)
    (hR : 1 ≤ R) (hmode : modeOk mode R = true) :
    ∃ raw g, rawRows mode nS nA nT nB R = some raw ∧
      generateMembers mode nS nA nT nB R = some g ∧
      g.length = R ∧
      (∀ row ∈ g, row.length = maxLen raw) ∧
      (∀ (r : Nat) (rawRow : List Member), raw[r]? = some rawRow →
        g[r]? = some (
          List.replicate ((maxLen raw - rawRow.length) / 2)
            (none : Option Member) ++
          rawRow.map some ++
          List.replicate ((maxLen raw - rawRow.length) -
            (maxLen raw - rawRow.length) / 2) (none : Option Member))) := by
  obtain ⟨raw, hrun, hlen, _⟩ := rawRows_spec mode nS nA nT nB R hR hmode
  refine ⟨raw, balance raw, hrun, ?_, ?_, ?_, ?_⟩
  · unfold generateMembers
    rw [hrun]
    rfl
  · rw [balance_length, hlen]
  · intro row hrow
    unfold balance at hrow
    obtain ⟨rawRow, _, rfl⟩ := List.mem_map.mp hrow
    exact balanceRow_length _ _
  · intro r rawRow h
    exact balance_getElem? raw r rawRow h

theorem C1_grid_shape_witness :
    ∃ raw g, rawRows .auto 1 1 1 1 2 = some raw ∧
      generateMembers .auto 1 1 1 1 2 = some g ∧
      g.length = 2 ∧
      (∀ row ∈ g, row.length = maxLen raw) ∧
      (∀ (r : Nat) (rawRow : List Member), raw[r]? = some rawRow →
        g[r]? = some (
          List.replicate ((maxLen raw - rawRow.length) / 2)
            (none : Option Member) ++
          rawRow.map some ++
          List.replicate ((maxLen raw - rawRow.length) -
            (maxLen raw - rawRow.length) / 2) (none : Option Member))) :=
  C1_grid_shape .auto 1 1 1 1 2 (by decide) (by decide)

/-- C2: distribution follows the round-robin group rule: for a target-row
group of `k` distinct existing rows, the member at overall position `p` of
the group's concatenated source sequence is appended to the end of the
group's `(p mod k)`-th row (so each group row receives exactly the members
at source positions congruent to its group index, in source order); in
particular under `auto` the concatenation Soprano ++ Alto ++ Tenor ++ Bass
is distributed so that raw row `r` holds exactly the members at positions
congruent to `r` modulo `R`, in concatenation order. -/
theorem C2_round_robin :
    (∀ (ms : List Member) (targets : List Nat) (rows : List (List Member)),
      targets ≠ [] → targets.Nodup → (∀ t ∈ targets, t < rows.length) →
      ∃ rows', flatInsert ms targets rows = some rows' ∧
        ∀ j t : Nat, targets[j]? = some t →
          rows'[t]? =
            Option.map (· ++ selectMod ms targets.length j) rows[t]?) ∧
    (∀ nS nA nT nB R : Nat, 1 ≤ R →
      ∃ raw, rawRows .auto nS nA nT nB R = some raw ∧
        ∀ r : Nat, r < R →
          raw[r]? = some (selectMod (rosterConcat nS nA nT nB) R r)) := by
  constructor
  · intro ms targets rows hne hnd hrange
    obtain ⟨rows', hrun, _, _, hcontent⟩ :=
      flatInsert_spec ms targets rows hne hnd hrange
    exact ⟨rows', hrun, hcontent⟩
  · intro nS nA nT nB R hR
    obtain ⟨raw, hrun, _, hcontent⟩ := rawRows_auto_content nS nA nT nB R hR
    exact ⟨raw, hrun, hcontent⟩

theorem C2_round_robin_witness :
    (∃ rows', flatInsert (sopranoList 3) [0, 1]
        ([[], []] : List (List Member)) = some rows' ∧
      ∀ j t : Nat, ([0, 1] : List Nat)[j]? = some t →
        rows'[t]? = Option.map (· ++ selectMod (sopranoList 3) 2 j)
          ([[], []] : List (List Member))[t]?) ∧
    (∃ raw, rawRows .auto 2 2 0 0 2 = some raw ∧
      ∀ r : Nat, r < 2 → raw[r]? = some (selectMod (rosterConcat 2 2 0 0) 2 r)) :=
  ⟨C2_round_robin.1 (sopranoList 3) [0, 1] [[], []] (by decide) (by decide)
      (by decide),
    C2_round_robin.2 2 2 0 0 2 (by decide)⟩

/-- C3: for every policy/row-count combination that does not trigger the
out-of-range case (`auto` with `R ≥ 1`, `condition1` with `R ≥ 3`,
`condition2` with `R ≥ 4`), the members sitting in the generated grid are a
permutation of the roster of that build: the number of non-empty slots
equals the total roster size, every non-empty slot holds a member of that
roster, no member occupies two slots, and every valid swap preserves all of
this. -/
theorem C3_conservation (mode : LayoutMode) (nS nA nT nB R : Nat)
    (hR : 1 ≤ R) (hmode : modeOk mode R = true) :
    ∃ g, generateMembers mode nS nA nT nB R = some g ∧
      (gridMembers g).Perm (rosterConcat nS nA nT nB) ∧
      nonEmptyCount g = nS + nA + nT + nB ∧
      (∀ m ∈ gridMembers g, m ∈ rosterConcat nS nA nT nB) ∧
      (gridMembers g).Nodup ∧
      (∀ (fr fi tr ti : Nat) (g' : Grid),
        validAddr g fr fi = true → validAddr g tr ti = true →
        moveMember g fr fi tr ti = some g' →
        (gridMembers g').Perm (rosterConcat nS nA nT nB) ∧
        nonEmptyCount g' = nS + nA + nT + nB ∧
        (∀ m ∈ gridMembers g', m ∈ rosterConcat nS nA nT nB) ∧
        (gridMembers g').Nodup) := by
  obtain ⟨raw, hrun, _, hperm⟩ := rawRows_spec mode nS nA nT nB R hR hmode
  have hgen : generateMembers mode nS nA nT nB R = some (balance raw) := by
    unfold generateMembers
    rw [hrun]
    rfl
  have hgm : gridMembers (balance raw) = raw.flatten := gridMembers_balance raw
  have hperm' : (gridMembers (balance raw)).Perm (rosterConcat nS nA nT nB) := by
    rw [hgm]
    exact hperm
  have hnodup : (gridMembers (balance raw)).Nodup :=
    hperm'.symm.nodup (rosterConcat_nodup nS nA nT nB)
  have hcnt : nonEmptyCount (balance raw) = nS + nA + nT + nB := by
    unfold nonEmptyCount
    rw [hperm'.length_eq, rosterConcat_length]
  refine ⟨balance raw, hgen, hperm', hcnt, ?_, hnodup, ?_⟩
  · intro m hm
    exact hperm'.mem_iff.mp hm
  · intro fr fi tr ti g' hvf hvt hmv
    obtain ⟨g'', hrun', _, _, _, _, _, hcount⟩ :=
      moveMember_spec (balance raw) fr fi tr ti hvf hvt
    rw [hrun'] at hmv
    obtain rfl : g'' = g' := Option.some.inj hmv
    have hcount' : ∀ x : Option Member,
        @List.count (Option Member) instBEqOfDecidableEq x g''.flatten =
        @List.count (Option Member) instBEqOfDecidableEq x
          (balance raw).flatten := by
      intro x
      rw [← count_eq_decEq_count, ← count_eq_decEq_count]
      exact hcount x
    have hpermflat : g''.flatten.Perm ((balance raw).flatten) :=
      List.perm_iff_count.mpr hcount'
    have hpermg : (gridMembers g'').Perm (gridMembers (balance raw)) :=
      hpermflat.filterMap id
    have hpermg' : (gridMembers g'').Perm (rosterConcat nS nA nT nB) :=
      hpermg.trans hperm'
    refine ⟨hpermg', ?_, ?_, hpermg'.symm.nodup (rosterConcat_nodup nS nA nT nB)⟩
    · unfold nonEmptyCount
      rw [hpermg'.length_eq, rosterConcat_length]
    · intro m hm
      exact hpermg'.mem_iff.mp hm

theorem C3_conservation_witness :
    ∃ g, generateMembers .condition1 2 2 1 1 3 = some g ∧
      (gridMembers g).Perm (rosterConcat 2 2 1 1) ∧
      nonEmptyCount g = 2 + 2 + 1 + 1 ∧
      (∀ m ∈ gridMembers g, m ∈ rosterConcat 2 2 1 1) ∧
      (gridMembers g).Nodup ∧
      (∀ (fr fi tr ti : Nat) (g' : Grid),
        validAddr g fr fi = true → validAddr g tr ti = true →
        moveMember g fr fi tr ti = some g' →
        (gridMembers g').Perm (rosterConcat 2 2 1 1) ∧
        nonEmptyCount g' = 2 + 2 + 1 + 1 ∧
        (∀ m ∈ gridMembers g', m ∈ rosterConcat 2 2 1 1) ∧
        (gridMembers g').Nodup) :=
  C3_conservation .condition1 2 2 1 1 3 (by decide) (by decide)

/-- C4: for every grid and every pair of valid slot addresses, Swap
exchanges the contents of the two addressed slots, leaves every other slot
and every row length unchanged; and concretely
`Swap(row0 slot0, row1 slot0)` on `[[S0,A0],[S1,A1]]` yields
`[[S1,A0],[S0,A1]]`. -/
theorem C4_swap_exchanges :
    (∀ (rows : Grid) (fr fi tr ti : Nat),
      validAddr rows fr fi = true → validAddr rows tr ti = true →
      ∃ g, moveMember rows fr fi tr ti = some g ∧
        slotAt g fr fi = slotAt rows tr ti ∧
        slotAt g tr ti = slotAt rows fr fi ∧
        (∀ r i : Nat, ¬(r = fr ∧ i = fi) → ¬(r = tr ∧ i = ti) →
          slotAt g r i = slotAt rows r i) ∧
        (∀ r : Nat, Option.map List.length g[r]? =
          Option.map List.length rows[r]?)) ∧
    moveMember
      [[some ⟨0, "S0", .Soprano⟩, some ⟨2, "A0", .Alto⟩],
       [some ⟨1, "S1", .Soprano⟩, some ⟨3, "A1", .Alto⟩]] 0 0 1 0 =
      some [[some ⟨1, "S1", .Soprano⟩, some ⟨2, "A0", .Alto⟩],
            [some ⟨0, "S0", .Soprano⟩, some ⟨3, "A1", .Alto⟩]] := by
  constructor
  · intro rows fr fi tr ti hf ht
    obtain ⟨g, hrun, _, hlens, hsa, hsb, hframe, _⟩ :=
      moveMember_spec rows fr fi tr ti hf ht
    exact ⟨g, hrun, hsa, hsb, hframe, hlens⟩
  · decide

theorem C4_swap_exchanges_witness :
    ∃ g, moveMember
        [[some ⟨0, "S0", .Soprano⟩, some ⟨2, "A0", .Alto⟩],
         [some ⟨1, "S1", .Soprano⟩, some ⟨3, "A1", .Alto⟩]] 0 0 1 0 =
        some g ∧
      slotAt g 0 0 = slotAt
        [[some ⟨0, "S0", .Soprano⟩, some ⟨2, "A0", .Alto⟩],
         [some ⟨1, "S1", .Soprano⟩, some ⟨3, "A1", .Alto⟩]] 1 0 ∧
      slotAt g 1 0 = slotAt
        [[some ⟨0, "S0", .Soprano⟩, some ⟨2, "A0", .Alto⟩],
         [some ⟨1, "S1", .Soprano⟩, some ⟨3, "A1", .Alto⟩]] 0 0 ∧
      (∀ r i : Nat, ¬(r = 0 ∧ i = 0) → ¬(r = 1 ∧ i = 0) →
        slotAt g r i = slotAt
          [[some ⟨0, "S0", .Soprano⟩, some ⟨2, "A0", .Alto⟩],
           [some ⟨1, "S1", .Soprano⟩, some ⟨3, "A1", .Alto⟩]] r i) ∧
      (∀ r : Nat, Option.map List.length g[r]? = Option.map List.length
        ([[some ⟨0, "S0", .Soprano⟩, some ⟨2, "A0", .Alto⟩],
          [some ⟨1, "S1", .Soprano⟩, some ⟨3, "A1", .Alto⟩]] : Grid)[r]?) :=
  C4_swap_exchanges.1
    [[some ⟨0, "S0", .Soprano⟩, some ⟨2, "A0", .Alto⟩],
     [some ⟨1, "S1", .Soprano⟩, some ⟨3, "A1", .Alto⟩]] 0 0 1 0
    (by decide) (by decide)

/-- C7: Swap is an involution: for two distinct valid addresses, applying
`moveMember` twice with the same arguments restores the original grid. -/
theorem C7_swap_involution (rows : Grid) (fr fi tr ti : Nat)
    (hne : ¬(fr = tr ∧ fi = ti))
    (hf : validAddr rows fr fi = true) (ht : validAddr rows tr ti = true) :
    ∃ g g2, moveMember rows fr fi tr ti = some g ∧
      moveMember g fr fi tr ti = some g2 ∧ g2 = rows := by
  obtain ⟨g, hrun1, hlen1, hrows1, hsa1, hsb1, hframe1, _⟩ :=
    moveMember_spec rows fr fi tr ti hf ht
  have hvf : validAddr g fr fi = true := by
    rw [validAddr_congr g rows hrows1]
    exact hf
  have hvt : validAddr g tr ti = true := by
    rw [validAddr_congr g rows hrows1]
    exact ht
  obtain ⟨g2, hrun2, hlen2, _, hsa2, hsb2, hframe2, _⟩ :=
    moveMember_spec g fr fi tr ti hvf hvt
  refine ⟨g, g2, hrun1, hrun2, ?_⟩
  apply grid_ext g2 rows (hlen2.trans hlen1)
  intro r i
  by_cases hra : r = fr ∧ i = fi
  · obtain ⟨rfl, rfl⟩ := hra
    rw [hsa2, hsb1]
  · by_cases hrb : r = tr ∧ i = ti
    · obtain ⟨rfl, rfl⟩ := hrb
      rw [hsb2, hsa1]
    · rw [hframe2 r i hra hrb, hframe1 r i hra hrb]

theorem C7_swap_involution_witness :
    ∃ g g2, moveMember
        [[some ⟨0, "S0", .Soprano⟩, some ⟨2, "A0", .Alto⟩],
         [some ⟨1, "S1", .Soprano⟩, some ⟨3, "A1", .Alto⟩]] 0 1 1 0 =
        some g ∧
      moveMember g 0 1 1 0 = some g2 ∧
      g2 = [[some ⟨0, "S0", .Soprano⟩, some ⟨2, "A0", .Alto⟩],
            [some ⟨1, "S1", .Soprano⟩, some ⟨3, "A1", .Alto⟩]] :=
  C7_swap_involution
    [[some ⟨0, "S0", .Soprano⟩, some ⟨2, "A0", .Alto⟩],
     [some ⟨1, "S1", .Soprano⟩, some ⟨3, "A1", .Alto⟩]] 0 1 1 0
    (by decide) (by decide) (by decide)

/-- C8: for every grid and valid address, the degenerate self-swap
`Swap(a, a)` returns a grid structurally identical to the original. -/
theorem C8_self_swap (rows : Grid) (r i : Nat)
    (h : validAddr rows r i = true) :
    moveMember rows r i r i = some rows := by
  obtain ⟨row, hr, hi⟩ := (validAddr_iff rows r i).mp h
  obtain ⟨v, hv⟩ : ∃ v, row[i]? = some v := ⟨_, List.getElem?_eq_getElem hi⟩
  have hjs : jsGet row i = v := by
    unfold jsGet
    rw [hv]
  have hset : jsSet row i v = row.set i v := by
    unfold jsSet
    rw [if_pos hi]
  have hsetself : row.set i v = row := set_getElem?_self row i v hv
  have hrowsself : rows.set r row = rows := set_getElem?_self rows r row hr
  simp only [moveMember, hr, hjs, hset, hsetself, hrowsself, hv]

theorem C8_self_swap_witness :
    moveMember
      [[some ⟨0, "S0", .Soprano⟩, some ⟨2, "A0", .Alto⟩],
       [some ⟨1, "S1", .Soprano⟩, some ⟨3, "A1", .Alto⟩]] 1 1 1 1 =
      some [[some ⟨0, "S0", .Soprano⟩, some ⟨2, "A0", .Alto⟩],
            [some ⟨1, "S1", .Soprano⟩, some ⟨3, "A1", .Alto⟩]] :=
  C8_self_swap
    [[some ⟨0, "S0", .Soprano⟩, some ⟨2, "A0", .Alto⟩],
     [some ⟨1, "S1", .Soprano⟩, some ⟨3, "A1", .Alto⟩]] 1 1 (by decide)

/-- C9: for every category and non-negative count `n`, the roster builder
produces exactly `n` members, in creation order, whose display labels are
the category's initial letter followed by the zero-based index. -/
theorem C9_roster_labels (p : Part) (n base : Nat) :
    (mkMembers p n base).length = n ∧
    ∀ i : Nat, i < n → (mkMembers p n base)[i]? =
      some ⟨base + i, partInitial p ++ toString i, p⟩ := by
  refine ⟨length_mkMembers p n base, ?_⟩
  intro i hi
  unfold mkMembers
  rw [List.getElem?_map, List.getElem?_range hi]
  rfl

theorem C9_roster_labels_witness :
    (mkMembers .Soprano 3 0).length = 3 ∧
    (mkMembers .Soprano 3 0)[1]? =
      some ⟨0 + 1, partInitial .Soprano ++ toString 1, .Soprano⟩ :=
  ⟨(C9_roster_labels .Soprano 3 0).1,
    (C9_roster_labels .Soprano 3 0).2 1 (by decide)⟩

/-- C5: `condition1` with row count `R < 3` (here the app's default counts
`S=9, A=10, T=5, B=5` with `R = 2`): the grid assigner neither rejects the
combination up front with a configuration error nor clamps the target row;
it accesses the non-existent row 2 mid-distribution and the evaluation
aborts (modelled as `none`, the thrown `TypeError`). -/
theorem C5_policy_mismatch_fault :
    generateMembers .condition1 9 10 5 5 2 = none ∧
    generateMembers .condition2 1 1 1 1 3 = none := by
  constructor
  · rfl
  · rfl

/-- C6: Swap with an out-of-range slot index does not signal an error and
does not leave the grid unchanged: on the 2×2 grid, `Swap((0,0), (0,5))`
clears slot `(0,0)` and writes the member past the end of row 0, extending
it to length 6 while row 1 keeps length 2 — the grid is corrupted. -/
theorem C6_swap_out_of_range_corrupts :
    validAddr
      [[some ⟨0, "S0", .Soprano⟩, some ⟨2, "A0", .Alto⟩],
       [some ⟨1, "S1", .Soprano⟩, some ⟨3, "A1", .Alto⟩]] 0 5 = false ∧
    moveMember
      [[some ⟨0, "S0", .Soprano⟩, some ⟨2, "A0", .Alto⟩],
       [some ⟨1, "S1", .Soprano⟩, some ⟨3, "A1", .Alto⟩]] 0 0 0 5 =
      some [[none, some ⟨2, "A0", .Alto⟩, none, none, none,
             some ⟨0, "S0", .Soprano⟩],
            [some ⟨1, "S1", .Soprano⟩, some ⟨3, "A1", .Alto⟩]] ∧
    List.map List.length
      ([[none, some ⟨2, "A0", .Alto⟩, none, none, none,
        some ⟨0, "S0", .Soprano⟩],
       [some ⟨1, "S1", .Soprano⟩, some ⟨3, "A1", .Alto⟩]] : Grid) = [6, 2] := by
  refine ⟨by decide, by decide, by decide⟩

/-- C10 (counterexample): regenerate does not always succeed: with
normalized inputs (count 0, malformed count, negative count, count 1, row
count 1) under `condition1`, regeneration aborts (`none`) instead of
producing a grid. -/
theorem C10_regenerate_counterexample :
    generateMembers .condition1 (normalizeCount (some 0))
      (normalizeCount none) (normalizeCount (some (-1)))
      (normalizeCount (some 1)) (normalizeRowCount (some 1)) = none := by
  rfl

/-- C10 (amended): invalid numeric input is recovered locally by
normalization and never surfaced as an error — a malformed or non-numeric
count contributes zero members, a negative count is treated as zero, the
row count is clamped to at least 1 — and regenerate succeeds whenever the
policy's target rows exist (always under `auto`; under `condition1` /
`condition2` whenever `R ≥ 3` resp. `R ≥ 4`).  It is not guaranteed to
succeed for smaller row counts: the counterexample above exhibits a
normalized configuration where it aborts. -/
theorem C10_normalization (nS : Nat) :
    normalizeCount none = 0 ∧
    (∀ v : Int, v ≤ 0 → normalizeCount (some v) = 0) ∧
    (∀ p : Part, mkMembers p (normalizeCount none) nS = []) ∧
    (∀ s : Option Int, 1 ≤ normalizeRowCount s) ∧
    (∀ cS cA cT cB r : Option Int,
      ∃ g, generateMembers .auto (normalizeCount cS) (normalizeCount cA)
        (normalizeCount cT) (normalizeCount cB)
        (normalizeRowCount r) = some g) ∧
    (∀ (mode : LayoutMode) (nS' nA nT nB R : Nat),
      1 ≤ R → modeOk mode R = true →
      ∃ g, generateMembers mode nS' nA nT nB R = some g) := by
  refine ⟨rfl, ?_, ?_, ?_, ?_, ?_⟩
  · intro v hv
    simp only [normalizeCount]
    omega
  · intro p
    rfl
  · intro s
    cases s with
    | none => exact Nat.le_refl 1
    | some v =>
      simp only [normalizeRowCount]
      omega
  · intro cS cA cT cB r
    have hR : 1 ≤ normalizeRowCount r := by
      cases r with
      | none => exact Nat.le_refl 1
      | some v =>
        simp only [normalizeRowCount]
        omega
    obtain ⟨raw, hrun, _, _⟩ := rawRows_spec .auto (normalizeCount cS)
      (normalizeCount cA) (normalizeCount cT) (normalizeCount cB)
      (normalizeRowCount r) hR rfl
    refine ⟨balance raw, ?_⟩
    unfold generateMembers
    rw [hrun]
    rfl
  · intro mode nS' nA nT nB R hR hmode
    obtain ⟨raw, hrun, _, _⟩ := rawRows_spec mode nS' nA nT nB R hR hmode
    refine ⟨balance raw, ?_⟩
    unfold generateMembers
    rw [hrun]
    rfl

theorem C10_normalization_witness :
    normalizeCount none = 0 ∧
    normalizeCount (some (-7)) = 0 ∧
    mkMembers .Tenor (normalizeCount none) 5 = [] ∧
    1 ≤ normalizeRowCount (some 0) ∧
    (∃ g, generateMembers .auto (normalizeCount (some 2))
      (normalizeCount none) (normalizeCount (some (-3)))
      (normalizeCount (some 1)) (normalizeRowCount (some 0)) = some g) ∧
    (∃ g, generateMembers .condition2 1 1 1 1 4 = some g) :=
  ⟨(C10_normalization 5).1,
    (C10_normalization 5).2.1 (-7) (by decide),
    (C10_normalization 5).2.2.1 .Tenor,
    (C10_normalization 5).2.2.2.1 (some 0),
    (C10_normalization 5).2.2.2.2.1 (some 2) none (some (-3)) (some 1)
      (some 0),
    (C10_normalization 5).2.2.2.2.2 .condition2 1 1 1 1 4 (by decide)
      (by decide)⟩

end ChoirManager
